import Mathlib

/-
Verification of the incremental taxonomy synchronization engine of the
software-history repository (src/SoftwareMap/Maintenance.py together with the
legacy revision src/to_be_removed/create_class_hierarchy.py).

The property-graph store is modelled as an explicit list of labelled nodes and
typed relationships.  Each Cypher statement issued by the Python code is
translated into a Lean function on this store, and the two sync modes
(Tasks.update_database, Tasks.add_new_software), the batch writer
(Tasks.generate_batches, Tasks.merge_data), the hierarchy crawler
(_create_superclass_tree with add_parents) and the rate-limit retry loop of
get_superclasses are translated on top of those statement functions.

Modelling conventions:
  * datetime() is modelled by a monotone counter Graph.time, bumped at each
    node or relationship creation; only creation order matters to the claims.
  * Neo4j internal node ids are modelled by Graph.nextId.
  * Graph.txns counts issued write statements: one per batch in merge_data
    (session.run), one per parent in add_parents (tx.run), one per software
    row reaching the MATCH/MERGE/CREATE statement of add_new_software.
  * MERGE of a node binds the first matching node when a match exists and
    otherwise appends a fresh node, applying the ON CREATE SET clauses of the
    statement being modelled.  The Python code never creates a store-level
    uniqueness constraint, so duplicate (label, uri) nodes are representable.
  * The remote SPARQL endpoint is an oracle carried in the Remote structures;
    get_superclasses receives the list of successive responses the remote
    would give to the (identical, retried) query for one class uri.
-/

/-- Node labels used by the code: Class, Software, Genre. -/
inductive NodeLabel where
  | Class
  | Software
  | Genre
deriving DecidableEq

/-- A stored node: internal id, label, uri key, optional label property,
optional created timestamp.  Properties absent on the node are none. -/
structure Node where
  id : Nat
  nodeLabel : NodeLabel
  uri : String
  label : Option String
  created : Option Nat
deriving DecidableEq

/-- A stored relationship: type string, source and destination node ids,
optional created timestamp. -/
structure Edge where
  relType : String
  src : Nat
  dst : Nat
  created : Option Nat
deriving DecidableEq

/-- The property graph store state. -/
structure Graph where
  nextId : Nat
  time : Nat
  txns : Nat
  nodes : List Node
  rels : List Edge
deriving DecidableEq

def Graph.empty : Graph := ⟨0, 0, 0, [], []⟩

/-- Membership of a string in a list, as the Python membership test on the
uri sets read from the store. -/
def memS (u : String) (xs : List String) : Bool :=
  xs.any (fun s => decide (s = u))

/-- Uris of all nodes carrying a given label, as read by the
MATCH (n:L) RETURN n.uri queries of update_database and add_new_software. -/
def node_uris (g : Graph) (lbl : NodeLabel) : List String :=
  (g.nodes.filter (fun n => decide (n.nodeLabel = lbl))).map (fun n => n.uri)

/-- MERGE (n:lbl with uri) ON CREATE SET n.label, n.created, as in merge_data
and in the add_parents of Maintenance.py.  Binds the first matching node of
that label and uri; otherwise appends a fresh node with the label property and
created timestamp set.  Returns the new store and the bound node id. -/
def mergeNodeByUri (g : Graph) (lbl : NodeLabel) (uri lab : String) : Graph × Nat :=
  match g.nodes.find? (fun n => decide (n.nodeLabel = lbl) && decide (n.uri = uri)) with
  | some n => (g, n.id)
  | none =>
      ({ g with nextId := g.nextId + 1, time := g.time + 1,
                nodes := g.nodes ++ [⟨g.nextId, lbl, uri, some lab, some g.time⟩] },
       g.nextId)

/-- MERGE (s:Software with uri AND label) ON CREATE SET s.created, the
software merge of add_new_software: the merge pattern of line 178 of
Maintenance.py carries both uri and label, so the match requires both. -/
def mergeNodeByUriLabel (g : Graph) (lbl : NodeLabel) (uri lab : String) : Graph × Nat :=
  match g.nodes.find? (fun n =>
      decide (n.nodeLabel = lbl) && decide (n.uri = uri) && decide (n.label = some lab)) with
  | some n => (g, n.id)
  | none =>
      ({ g with nextId := g.nextId + 1, time := g.time + 1,
                nodes := g.nodes ++ [⟨g.nextId, lbl, uri, some lab, some g.time⟩] },
       g.nextId)

/-- MERGE (n:lbl with uri) with no ON CREATE clause, as in the legacy
add_parents of to_be_removed/create_class_hierarchy.py: a created node has no
label property and no created timestamp. -/
def mergeNodeBare (g : Graph) (lbl : NodeLabel) (uri : String) : Graph × Nat :=
  match g.nodes.find? (fun n => decide (n.nodeLabel = lbl) && decide (n.uri = uri)) with
  | some n => (g, n.id)
  | none =>
      ({ g with nextId := g.nextId + 1,
                nodes := g.nodes ++ [⟨g.nextId, lbl, uri, none, none⟩] },
       g.nextId)

/-- MERGE of a relationship of a given type between two bound nodes,
ON CREATE SET relation.created, as in merge_data and add_parents. -/
def mergeRel (g : Graph) (t : String) (src dst : Nat) : Graph :=
  if g.rels.any (fun e =>
      decide (e.relType = t) && decide (e.src = src) && decide (e.dst = dst)) then g
  else { g with rels := g.rels ++ [⟨t, src, dst, some g.time⟩], time := g.time + 1 }

/-- MERGE of a relationship with no ON CREATE clause (legacy revision): a
created relationship carries no created timestamp. -/
def mergeRelOld (g : Graph) (t : String) (src dst : Nat) : Graph :=
  if g.rels.any (fun e =>
      decide (e.relType = t) && decide (e.src = src) && decide (e.dst = dst)) then g
  else { g with rels := g.rels ++ [⟨t, src, dst, none⟩] }

/-- CREATE of a relationship (the INSTANCE edge statement of
add_new_software): always appends, duplicates included. -/
def createRel (g : Graph) (t : String) (src dst : Nat) : Graph :=
  { g with rels := g.rels ++ [⟨t, src, dst, some g.time⟩], time := g.time + 1 }

/-- SET n.label unconditionally on a bound node, the final clause of the
legacy add_parents. -/
def setNodeLabel (g : Graph) (nid : Nat) (lab : String) : Graph :=
  { g with nodes := g.nodes.map (fun n => if n.id = nid then { n with label := some lab } else n) }

/-- A projected result row of the bulk instance and subclass queries:
child uri and label, parent uri and label. -/
structure Row where
  child_uri : String
  child_label : String
  parent_uri : String
  parent_label : String
deriving DecidableEq

/-- A class reference as returned by get_superclasses: uri and label. -/
structure ClassRef where
  uri : String
  label : String
deriving DecidableEq

/-- Tasks.generate_batches: for i in range(0, len(data), batch_size) yield
the slice of data from i of length batch_size.  The k-th yielded batch is the
slice starting at i = k * batch_size; the number of batches is the number of
elements of range(0, len(data), batch_size), namely the rounded-up quotient.
For batch_size = 0 the Python range call raises ValueError; the model returns
the empty list on that out-of-domain input. -/
def generate_batches {α : Type} (data : List α) (batch_size : Nat) : List (List α) :=
  (List.range ((data.length + batch_size - 1) / batch_size)).map
    (fun k => (data.drop (k * batch_size)).take batch_size)

/-- One row of the UNWIND in the batched merge statement of
Tasks.merge_data: merge the child node by uri under the given label, merge the
parent node by uri under label Class, merge the relationship between them. -/
def merge_row (lbl : NodeLabel) (rel : String) (g : Graph) (r : Row) : Graph :=
  let c := mergeNodeByUri g lbl r.child_uri r.child_label
  let p := mergeNodeByUri c.1 NodeLabel.Class r.parent_uri r.parent_label
  mergeRel p.1 rel c.2 p.2

/-- One session.run of the batched merge statement: one write transaction
processing every row of the batch in order. -/
def run_batch (lbl : NodeLabel) (rel : String) (g : Graph) (batch : List Row) : Graph :=
  batch.foldl (merge_row lbl rel) { g with txns := g.txns + 1 }

/-- Tasks.merge_data: split data into batches and commit one statement per
batch, in order.  The Python function body has no return statement, so its
value is None: the second component models that returned value, in particular
the absence of any returned creation counts. -/
def merge_data (g : Graph) (data : List Row) (lbl : NodeLabel) (rel : String)
    (batch_size : Nat) : Graph × Option (Nat × Nat) :=
  ((generate_batches data batch_size).foldl (run_batch lbl rel) g, none)

/-- Rows whose child uri is not in the known set, the list comprehensions of
Tasks.update_database filtering the remote rows against the stored uris. -/
def newRows (known : List String) (rows : List Row) : List Row :=
  rows.filter (fun n => !(memS n.child_uri known))

/-- The remote snapshot seen by bulk mode: the projected rows of the
subclass query and of the instance query. -/
structure BulkRemote where
  subclasses : List Row
  instances : List Row
deriving DecidableEq

/-- Tasks.update_database: read the stored Software and Class uris, filter
the remote rows by child uri against them, then merge the remaining subclass
rows (label Class, relationship SUBCLASS) and instance rows (label Software,
relationship INSTANCE) with the default batch size 500. -/
def update_database (g : Graph) (r : BulkRemote) : Graph :=
  let current_software := node_uris g NodeLabel.Software
  let current_subclasses := node_uris g NodeLabel.Class
  let subclass_nodes := newRows current_subclasses r.subclasses
  let software_nodes := newRows current_software r.instances
  let g1 := (merge_data g subclass_nodes NodeLabel.Class "SUBCLASS" 500).1
  (merge_data g1 software_nodes NodeLabel.Software "INSTANCE" 500).1

/-- One attempt outcome of the SPARQL superclass query: a successful result
table already projected to class references, or an HTTPError with its code. -/
inductive Attempt where
  | ok (rows : List ClassRef)
  | http (code : Nat) (reason : String)
deriving DecidableEq

/-- The retry loop of get_superclasses in Maintenance.py: run the query;
on HTTPError with code 429 sleep for the fixed 10 second interval and retry
the identical query, with no bound on the retry count; on any other HTTPError
re-raise; on success return the projected rows.  The input is the list of
successive responses of the remote; the result is none when the remote
answers 429 forever (the while loop never exits), otherwise the number of
backoff sleeps performed together with either the error raised or the rows. -/
def get_superclasses : List Attempt → Option (Nat × Except (Nat × String) (List ClassRef))
  | [] => none
  | Attempt.ok rows :: _ => some (0, Except.ok rows)
  | Attempt.http code reason :: rest =>
      if code = 429 then
        match get_superclasses rest with
        | none => none
        | some (w, res) => some (w + 1, res)
      else some (0, Except.error (code, reason))

/-- The add_parents of Maintenance.py: for each parent, one tx.run merging
the subclass node by uri, the superclass node by uri (labels and created set
only on creation) and the SUBCLASS relationship between them. -/
def add_parents (g : Graph) (c : ClassRef) (parents : List ClassRef) : Graph :=
  parents.foldl
    (fun g parent =>
      let s := mergeNodeByUri { g with txns := g.txns + 1 } NodeLabel.Class c.uri c.label
      let sup := mergeNodeByUri s.1 NodeLabel.Class parent.uri parent.label
      mergeRel sup.1 "SUBCLASS" s.2 sup.2)
    g

/-- The legacy add_parents of to_be_removed/create_class_hierarchy.py: for
each parent, one tx.run merging both class nodes by uri with no ON CREATE
clause, merging the SUBCLASS relationship, then unconditionally setting the
label property of the superclass node. -/
def add_parents_old (g : Graph) (uri : String) (parents : List ClassRef) : Graph :=
  parents.foldl
    (fun g parent =>
      let s := mergeNodeBare { g with txns := g.txns + 1 } NodeLabel.Class uri
      let sup := mergeNodeBare s.1 NodeLabel.Class parent.uri
      let g2 := mergeRelOld sup.1 "SUBCLASS" s.2 sup.2
      setNodeLabel g2 sup.2 parent.label)
    g

/-- The remote oracle seen by recursive mode: the projected instance rows
(item as child, type as parent), the subclass rows (fetched by
add_new_software but never used), and for each class uri the successive
responses of the remote to the superclass query for that uri. -/
structure RecRemote where
  instances : List Row
  subclassRows : List Row
  responses : String → List Attempt

/-- Crawl state threaded through _create_superclass_tree: the store, the
visited set, the log of class uris for which get_superclasses was invoked,
and the HTTPError that aborted the crawl, when one was raised. -/
structure CrawlState where
  graph : Graph
  visited : List String
  fetched : List String
  err : Option (Nat × String)
deriving DecidableEq

/-- Worklist form of the recursion of _create_superclass_tree.  The stack
holds, innermost first, the remaining parents of each enclosing for loop over
parents.  A stack frame head parent is skipped when already visited,
otherwise it is marked visited, its superclasses are fetched (a non-429
HTTPError propagates, aborting the whole crawl), add_parents commits its
SUBCLASS edges, and its own parents are pushed for recursion.  The fuel
argument bounds the number of loop steps; none models a crawl that has not
finished within that budget (the Python recursion has no such bound). -/
def crawl_loop (r : RecRemote) : Nat → Graph → List (List ClassRef) →
    List String → List String → Option CrawlState
  | 0, _, _, _, _ => none
  | _ + 1, g, [], visited, fetched => some ⟨g, visited, fetched, none⟩
  | fuel + 1, g, [] :: stack, visited, fetched => crawl_loop r fuel g stack visited fetched
  | fuel + 1, g, (p :: ps) :: stack, visited, fetched =>
      if memS p.uri visited then crawl_loop r fuel g (ps :: stack) visited fetched
      else
        match get_superclasses (r.responses p.uri) with
        | none => none
        | some (_, Except.error e) =>
            some ⟨g, p.uri :: visited, fetched ++ [p.uri], some e⟩
        | some (_, Except.ok parents) =>
            crawl_loop r fuel (add_parents g ⟨p.uri, p.label⟩ parents)
              (parents :: ps :: stack) (p.uri :: visited) (fetched ++ [p.uri])

/-- The function _create_superclass_tree of Maintenance.py, entered on one
class reference: fetch its superclasses (the start class is neither checked
against nor added to the visited set), commit its SUBCLASS edges via
add_parents, then recurse over the parents through crawl_loop. -/
def create_superclass_tree (r : RecRemote) (fuel : Nat) (c : ClassRef) (g : Graph)
    (visited : List String) (fetched : List String) : Option CrawlState :=
  match get_superclasses (r.responses c.uri) with
  | none => none
  | some (_, Except.error e) => some ⟨g, visited, fetched ++ [c.uri], some e⟩
  | some (_, Except.ok parents) =>
      crawl_loop r fuel (add_parents g c parents) [parents] visited (fetched ++ [c.uri])

/-- The MATCH/MERGE/CREATE statement run per new software row by
add_new_software: MATCH the Class node by the super uri (every match binds;
zero matches make the statement a no-op), MERGE the Software node keyed by
uri and label with created set only on creation, and CREATE an INSTANCE
relationship to the matched class. -/
def addSoftwareStmt (g : Graph) (sw_uri sw_label super_uri : String) : Graph :=
  let supers := g.nodes.filter (fun n =>
    decide (n.nodeLabel = NodeLabel.Class) && decide (n.uri = super_uri))
  supers.foldl
    (fun g sup =>
      let m := mergeNodeByUriLabel g NodeLabel.Software sw_uri sw_label
      createRel m.1 "INSTANCE" m.2 sup.id)
    { g with txns := g.txns + 1 }

/-- The per-row loop of Tasks.add_new_software: rows whose item uri is in the
set of stored software uris (read once, before the loop) are skipped; for the
others the superclass tree of their type is crawled (sharing one visited set
across the whole run) and the MATCH/MERGE/CREATE statement is run.  An
HTTPError raised inside the crawl propagates out of the loop: no handler
exists in add_new_software, so the rest of the rows is not processed and the
error, together with the store state already committed, is the outcome. -/
def add_new_software_go (r : RecRemote) (fuel : Nat) (current : List String) :
    List Row → Graph → List String → Option (Graph × Option (Nat × String))
  | [], g, _ => some (g, none)
  | row :: rest, g, visited =>
      if memS row.child_uri current then add_new_software_go r fuel current rest g visited
      else
        match create_superclass_tree r fuel ⟨row.parent_uri, row.parent_label⟩ g visited [] with
        | none => none
        | some st =>
            match st.err with
            | some e => some (st.graph, some e)
            | none =>
                add_new_software_go r fuel current rest
                  (addSoftwareStmt st.graph row.child_uri row.child_label row.parent_uri)
                  st.visited

/-- Tasks.add_new_software: read the stored software uris, fetch the remote
instance rows (and the subclass rows, which the function never uses), then
process each instance row with a fresh shared visited set.  The result is
none when a crawl exceeds the fuel budget, otherwise the final store paired
with the HTTPError that aborted the run, when one was raised. -/
def add_new_software (r : RecRemote) (fuel : Nat) (g : Graph) :
    Option (Graph × Option (Nat × String)) :=
  add_new_software_go r fuel (node_uris g NodeLabel.Software) r.instances g []

/-- A remote genre fact: a software uri together with a genre uri and label. -/
structure GenreFact where
  game_uri : String
  genre_uri : String
  genre_label : String
deriving DecidableEq

/-- Modelled from the spec: the body of Tasks.add_genre_to_videogames in
src/SoftwareMap/Maintenance.py is an empty stub (a bare pass statement), so
the genre tagging enrichment pass it is declared for is missing from src.
Following spec sections 4.6 and 8, one fact is applied by matching the
existing Software node with the game uri (facts matching no stored software
are dropped) and, on a match, merging the Genre node by uri and a MEMBER
relationship from the software to the genre. -/
def genreStep (g : Graph) (f : GenreFact) : Graph :=
  match g.nodes.find? (fun n =>
      decide (n.nodeLabel = NodeLabel.Software) && decide (n.uri = f.game_uri)) with
  | none => g
  | some sw =>
      let m := mergeNodeByUri g NodeLabel.Genre f.genre_uri f.genre_label
      mergeRel m.1 "MEMBER" sw.id m.2

/-- Modelled from the spec: the genre tagging pass applies every remote
genre fact in order to the store. -/
def add_genre_to_videogames (g : Graph) (facts : List GenreFact) : Graph :=
  facts.foldl genreStep g

/-
Part 2: theory of generate_batches and merge_data batching.
-/

theorem generate_batches_nil {α : Type} (bs : Nat) :
    generate_batches ([] : List α) bs = [] := by
  have h : ((List.length ([] : List α)) + bs - 1) / bs = 0 := by
    rcases bs with _ | b
    · simp
    · simp only [List.length_nil]
      have hb : 0 + (b + 1) - 1 = b := by omega
      rw [hb]
      exact Nat.div_eq_of_lt (Nat.lt_succ_self b)
  unfold generate_batches
  rw [h]
  rfl

theorem batch_count_succ {n bs : Nat} (hn : 0 < n) (hbs : 0 < bs) :
    (n + bs - 1) / bs = ((n - bs) + bs - 1) / bs + 1 := by
  have h2 : n + bs - 1 = (n - 1) + bs := by omega
  rw [h2, Nat.add_div_right _ hbs]
  rcases Nat.le_total n bs with h | h
  · have h1 : (n - bs) + bs - 1 = bs - 1 := by omega
    rw [h1, Nat.div_eq_of_lt (by omega), Nat.div_eq_of_lt (by omega)]
  · have h1 : (n - bs) + bs - 1 = n - 1 := by omega
    rw [h1]

theorem generate_batches_cons {α : Type} (data : List α) (bs : Nat)
    (hbs : 0 < bs) (hd : data ≠ []) :
    generate_batches data bs = data.take bs :: generate_batches (data.drop bs) bs := by
  have hn : 0 < data.length := List.length_pos.mpr hd
  unfold generate_batches
  rw [List.length_drop, batch_count_succ hn hbs, List.range_succ_eq_map,
      List.map_cons, List.map_map]
  congr 1
  · simp
  · apply List.map_congr_left
    intro k _
    simp only [Function.comp_apply]
    have hk : Nat.succ k * bs = bs + k * bs := by
      rw [Nat.succ_mul, Nat.add_comm]
    rw [hk, ← List.drop_drop]

theorem generate_batches_flatten {α : Type} (bs : Nat) (hbs : 0 < bs) :
    ∀ (data : List α), (generate_batches data bs).flatten = data := by
  have H : ∀ (n : Nat) (data : List α), data.length ≤ n →
      (generate_batches data bs).flatten = data := by
    intro n
    induction n with
    | zero =>
      intro data hlen
      have h : data = [] := List.eq_nil_of_length_eq_zero (Nat.le_zero.mp hlen)
      subst h
      rw [generate_batches_nil]
      rfl
    | succ n ih =>
      intro data hlen
      rcases eq_or_ne data [] with h | h
      · subst h; rw [generate_batches_nil]; rfl
      · have hpos : 0 < data.length := List.length_pos.mpr h
        have hdrop : (data.drop bs).length ≤ n := by
          rw [List.length_drop]; omega
        rw [generate_batches_cons data bs hbs h, List.flatten_cons, ih _ hdrop,
            List.take_append_drop]
  intro data
  exact H data.length data (Nat.le_refl _)

theorem generate_batches_ne_nil {α : Type} (bs : Nat) (hbs : 0 < bs) :
    ∀ (data : List α), ∀ b ∈ generate_batches data bs, b ≠ [] := by
  have H : ∀ (n : Nat) (data : List α), data.length ≤ n →
      ∀ b ∈ generate_batches data bs, b ≠ [] := by
    intro n
    induction n with
    | zero =>
      intro data hlen
      have h : data = [] := List.eq_nil_of_length_eq_zero (Nat.le_zero.mp hlen)
      subst h
      rw [generate_batches_nil]
      intro b hb
      exact absurd hb (List.not_mem_nil b)
    | succ n ih =>
      intro data hlen
      rcases eq_or_ne data [] with h | h
      · subst h
        rw [generate_batches_nil]
        intro b hb
        exact absurd hb (List.not_mem_nil b)
      · have hpos : 0 < data.length := List.length_pos.mpr h
        have hdrop : (data.drop bs).length ≤ n := by
          rw [List.length_drop]; omega
        rw [generate_batches_cons data bs hbs h]
        intro b hb
        rcases List.mem_cons.mp hb with hb | hb
        · subst hb
          intro hcon
          have : data.length = 0 ∨ bs = 0 := by
            have := congrArg List.length hcon
            rw [List.length_take] at this
            simp only [List.length_nil] at this
            omega
          omega
        · exact ih _ hdrop b hb
  intro data
  exact H data.length data (Nat.le_refl _)

theorem generate_batches_dropLast_length {α : Type} (bs : Nat) (hbs : 0 < bs) :
    ∀ (data : List α), ∀ b ∈ (generate_batches data bs).dropLast, b.length = bs := by
  have H : ∀ (n : Nat) (data : List α), data.length ≤ n →
      ∀ b ∈ (generate_batches data bs).dropLast, b.length = bs := by
    intro n
    induction n with
    | zero =>
      intro data hlen
      have h : data = [] := List.eq_nil_of_length_eq_zero (Nat.le_zero.mp hlen)
      subst h
      rw [generate_batches_nil]
      intro b hb
      exact absurd hb (List.not_mem_nil b)
    | succ n ih =>
      intro data hlen
      rcases eq_or_ne data [] with h | h
      · subst h
        rw [generate_batches_nil]
        intro b hb
        exact absurd hb (List.not_mem_nil b)
      · have hpos : 0 < data.length := List.length_pos.mpr h
        have hdrop : (data.drop bs).length ≤ n := by
          rw [List.length_drop]; omega
        rw [generate_batches_cons data bs hbs h]
        rcases eq_or_ne (data.drop bs) [] with hrest | hrest
        · rw [hrest, generate_batches_nil]
          intro b hb
          exact absurd hb (List.not_mem_nil b)
        · have hcons : generate_batches (data.drop bs) bs ≠ [] := by
            rw [generate_batches_cons (data.drop bs) bs hbs hrest]
            exact List.cons_ne_nil _ _
          rw [List.dropLast_cons_of_ne_nil hcons]
          intro b hb
          rcases List.mem_cons.mp hb with hb | hb
          · subst hb
            rw [List.length_take]
            have hlong : bs ≤ data.length := by
              by_contra hcon
              have : data.drop bs = [] := by
                apply List.eq_nil_of_length_eq_zero
                rw [List.length_drop]
                omega
              exact hrest this
            omega
          · exact ih _ hdrop b hb
  intro data
  exact H data.length data (Nat.le_refl _)

/-- C10: for every batch size greater than zero, the batches yielded by
generate_batches, concatenated in yield order, equal the input list exactly;
no yielded batch is empty; every batch except possibly the last has length
exactly batch_size; an empty input yields no batches, and merge_data on an
empty record list leaves the store unchanged and issues zero transactions. -/
theorem generate_batches_partition {α : Type} (data : List α) (bs : Nat) (hbs : 0 < bs)
    (g : Graph) (lbl : NodeLabel) (rel : String) :
    (generate_batches data bs).flatten = data ∧
    (∀ b ∈ generate_batches data bs, b ≠ []) ∧
    (∀ b ∈ (generate_batches data bs).dropLast, b.length = bs) ∧
    generate_batches ([] : List α) bs = [] ∧
    merge_data g [] lbl rel bs = (g, none) ∧
    (merge_data g [] lbl rel bs).1.txns = g.txns := by
  refine ⟨generate_batches_flatten bs hbs data, generate_batches_ne_nil bs hbs data,
    generate_batches_dropLast_length bs hbs data, generate_batches_nil bs, ?_, ?_⟩
  · simp [merge_data, generate_batches_nil]
  · simp [merge_data, generate_batches_nil]

theorem generate_batches_partition_witness :
    (generate_batches [1, 2, 3] 2).flatten = [1, 2, 3] :=
  (generate_batches_partition [1, 2, 3] 2 (by decide) Graph.empty
    NodeLabel.Class "SUBCLASS").1

/-- C9 (amended): any 1200 input records with batch size 500 are committed in
exactly three consecutive batches of sizes 500, 500 and 200, the store effect
being the three batch transactions applied in order; the Python merge_data
body has no return statement, so the run returns None rather than any
creation counts. -/
theorem merge_data_batch_boundary (data : List Row) (h : data.length = 1200)
    (g : Graph) (lbl : NodeLabel) (rel : String) :
    generate_batches data 500 = [data.take 500, (data.drop 500).take 500, data.drop 1000] ∧
    (generate_batches data 500).map List.length = [500, 500, 200] ∧
    (merge_data g data lbl rel 500).1 =
      run_batch lbl rel (run_batch lbl rel (run_batch lbl rel g (data.take 500))
        ((data.drop 500).take 500)) (data.drop 1000) ∧
    (merge_data g data lbl rel 500).2 = none := by
  have hcount : (data.length + 500 - 1) / 500 = 3 := by rw [h]
  have hgb : generate_batches data 500 =
      [data.take 500, (data.drop 500).take 500, data.drop 1000] := by
    unfold generate_batches
    rw [hcount]
    have hr : List.range 3 = [0, 1, 2] := by decide
    rw [hr]
    simp only [List.map_cons, List.map_nil]
    have h0 : data.drop (0 * 500) = data := by simp
    have h1 : (1 : Nat) * 500 = 500 := by norm_num
    have h2 : (2 : Nat) * 500 = 1000 := by norm_num
    rw [h0, h1, h2]
    have hlast : (data.drop 1000).take 500 = data.drop 1000 := by
      apply List.take_of_length_le
      rw [List.length_drop, h]
      omega
    rw [hlast]
  refine ⟨hgb, ?_, ?_, rfl⟩
  · rw [hgb]
    simp only [List.map_cons, List.map_nil, List.length_take, List.length_drop, h]
    norm_num
  · show ((generate_batches data 500).foldl (run_batch lbl rel) g) = _
    rw [hgb]
    simp [List.foldl_cons]

theorem merge_data_batch_boundary_witness :
    (generate_batches (List.replicate 1200 (⟨"u", "l", "p", "q"⟩ : Row)) 500).map
      List.length = [500, 500, 200] :=
  (merge_data_batch_boundary (List.replicate 1200 ⟨"u", "l", "p", "q"⟩)
    (List.length_replicate 1200 _) Graph.empty NodeLabel.Class "SUBCLASS").2.1

/-- C9 counterexample: the Python merge_data body has no return statement, so
at the concrete input of 1200 records with batch size 500 its returned value
is None; it does not return cumulative node and edge creation counts. -/
theorem merge_data_returns_no_counts :
    (merge_data Graph.empty (List.replicate 1200 (⟨"u", "l", "p", "q"⟩ : Row))
      NodeLabel.Class "SUBCLASS" 500).2 = none := rfl

/-- C8: bulk mode passes to the merge step exactly the remote rows whose
child uri is absent from the corresponding known uri set read from the store
(for known software s1 and remote rows s1 and s2, only the s2 row is merged),
and the same set difference is applied to the subclass rows against the
stored Class uris: update_database is the composition of the two filtered
merges. -/
theorem update_database_set_difference :
    (∀ (known : List String) (rows : List Row) (row : Row),
        row ∈ newRows known rows ↔ row ∈ rows ∧ memS row.child_uri known = false) ∧
    newRows ["s1"] [⟨"s1", "a", "c", "d"⟩, ⟨"s2", "b", "c", "d"⟩] =
      [⟨"s2", "b", "c", "d"⟩] ∧
    (∀ (g : Graph) (r : BulkRemote),
        update_database g r =
          (merge_data
            ((merge_data g (newRows (node_uris g NodeLabel.Class) r.subclasses)
                NodeLabel.Class "SUBCLASS" 500).1)
            (newRows (node_uris g NodeLabel.Software) r.instances)
            NodeLabel.Software "INSTANCE" 500).1) := by
  refine ⟨?_, by rfl, fun g r => rfl⟩
  intro known rows row
  simp [newRows, List.mem_filter]

/-
Part 3: frame properties of the current-revision merge operations.  Every
statement of Maintenance.py only appends to the node and relationship lists;
existing records, their label properties and created timestamps included,
are never modified.
-/

/-- Store h extends store g when the nodes and relationships of g are an
initial segment of those of h. -/
def GraphExtends (g h : Graph) : Prop :=
  (∃ s, h.nodes = g.nodes ++ s) ∧ (∃ t, h.rels = g.rels ++ t)

theorem extends_refl (g : Graph) : GraphExtends g g :=
  ⟨⟨[], by simp⟩, ⟨[], by simp⟩⟩

theorem extends_trans {g h k : Graph} (h1 : GraphExtends g h) (h2 : GraphExtends h k) :
    GraphExtends g k := by
  rcases h1 with ⟨⟨s1, hs1⟩, ⟨t1, ht1⟩⟩
  rcases h2 with ⟨⟨s2, hs2⟩, ⟨t2, ht2⟩⟩
  exact ⟨⟨s1 ++ s2, by rw [hs2, hs1, List.append_assoc]⟩,
         ⟨t1 ++ t2, by rw [ht2, ht1, List.append_assoc]⟩⟩

theorem extends_txns (g : Graph) : GraphExtends g { g with txns := g.txns + 1 } :=
  ⟨⟨[], by simp⟩, ⟨[], by simp⟩⟩

theorem extends_mergeNodeByUri (g : Graph) (lbl : NodeLabel) (u lab : String) :
    GraphExtends g (mergeNodeByUri g lbl u lab).1 := by
  unfold mergeNodeByUri
  cases h : g.nodes.find? (fun n => decide (n.nodeLabel = lbl) && decide (n.uri = u)) with
  | some n => exact ⟨⟨[], by simp⟩, ⟨[], by simp⟩⟩
  | none => exact ⟨⟨_, rfl⟩, ⟨[], by simp⟩⟩

theorem extends_mergeNodeByUriLabel (g : Graph) (lbl : NodeLabel) (u lab : String) :
    GraphExtends g (mergeNodeByUriLabel g lbl u lab).1 := by
  unfold mergeNodeByUriLabel
  cases h : g.nodes.find? (fun n =>
      decide (n.nodeLabel = lbl) && decide (n.uri = u) && decide (n.label = some lab)) with
  | some n => exact ⟨⟨[], by simp⟩, ⟨[], by simp⟩⟩
  | none => exact ⟨⟨_, rfl⟩, ⟨[], by simp⟩⟩

theorem extends_mergeRel (g : Graph) (t : String) (a b : Nat) :
    GraphExtends g (mergeRel g t a b) := by
  unfold mergeRel
  by_cases h : g.rels.any (fun e =>
      decide (e.relType = t) && decide (e.src = a) && decide (e.dst = b)) = true
  · rw [if_pos h]; exact extends_refl g
  · rw [if_neg h]; exact ⟨⟨[], by simp⟩, ⟨_, rfl⟩⟩

theorem extends_createRel (g : Graph) (t : String) (a b : Nat) :
    GraphExtends g (createRel g t a b) :=
  ⟨⟨[], by simp [createRel]⟩, ⟨_, rfl⟩⟩

theorem extends_foldl {β : Type} (step : Graph → β → Graph)
    (hstep : ∀ g b, GraphExtends g (step g b)) :
    ∀ (l : List β) (g : Graph), GraphExtends g (l.foldl step g) := by
  intro l
  induction l with
  | nil => intro g; exact extends_refl g
  | cons b bs ih => intro g; exact extends_trans (hstep g b) (ih (step g b))

theorem extends_merge_row (lbl : NodeLabel) (rel : String) (g : Graph) (r : Row) :
    GraphExtends g (merge_row lbl rel g r) := by
  refine extends_trans (extends_mergeNodeByUri g lbl r.child_uri r.child_label) ?_
  refine extends_trans
    (extends_mergeNodeByUri _ NodeLabel.Class r.parent_uri r.parent_label) ?_
  exact extends_mergeRel _ rel _ _

theorem extends_run_batch (g : Graph) (batch : List Row) (lbl : NodeLabel) (rel : String) :
    GraphExtends g (run_batch lbl rel g batch) :=
  extends_trans (extends_txns g)
    (extends_foldl (merge_row lbl rel) (extends_merge_row lbl rel) batch _)

theorem extends_merge_data (g : Graph) (data : List Row) (lbl : NodeLabel) (rel : String)
    (bs : Nat) : GraphExtends g (merge_data g data lbl rel bs).1 :=
  extends_foldl _ (fun g b => extends_run_batch g b lbl rel) (generate_batches data bs) g

theorem extends_add_parents (g : Graph) (c : ClassRef) (ps : List ClassRef) :
    GraphExtends g (add_parents g c ps) := by
  refine extends_foldl _ ?_ ps g
  intro g p
  refine extends_trans (extends_txns g) ?_
  refine extends_trans (extends_mergeNodeByUri _ NodeLabel.Class c.uri c.label) ?_
  refine extends_trans (extends_mergeNodeByUri _ NodeLabel.Class p.uri p.label) ?_
  exact extends_mergeRel _ "SUBCLASS" _ _

theorem extends_addSoftwareStmt (g : Graph) (su sl pu : String) :
    GraphExtends g (addSoftwareStmt g su sl pu) := by
  refine extends_trans (extends_txns g) ?_
  refine extends_foldl _ ?_ _ _
  intro g n
  refine extends_trans (extends_mergeNodeByUriLabel g NodeLabel.Software su sl) ?_
  exact extends_createRel _ "INSTANCE" _ _

/-
Part 4: node presence after merges.
-/

/-- A node with the given label and uri exists in the store. -/
def hasNode (g : Graph) (lbl : NodeLabel) (u : String) : Bool :=
  g.nodes.any (fun n => decide (n.nodeLabel = lbl) && decide (n.uri = u))

theorem memS_true {u : String} {xs : List String} : memS u xs = true ↔ u ∈ xs := by
  unfold memS
  rw [List.any_eq_true]
  constructor
  · rintro ⟨x, hx, hd⟩
    have hxu : x = u := of_decide_eq_true hd
    rwa [hxu] at hx
  · intro hx
    exact ⟨u, hx, by simp⟩

theorem memS_node_uris (g : Graph) (lbl : NodeLabel) (u : String) :
    memS u (node_uris g lbl) = hasNode g lbl u := by
  rw [Bool.eq_iff_iff, memS_true]
  unfold node_uris hasNode
  rw [List.any_eq_true]
  constructor
  · intro hmem
    rcases List.mem_map.mp hmem with ⟨n, hn, huri⟩
    rcases List.mem_filter.mp hn with ⟨hmem2, hlbl⟩
    refine ⟨n, hmem2, ?_⟩
    rw [Bool.and_eq_true]
    exact ⟨hlbl, decide_eq_true huri⟩
  · rintro ⟨n, hmem, hand⟩
    rw [Bool.and_eq_true] at hand
    exact List.mem_map.mpr
      ⟨n, List.mem_filter.mpr ⟨hmem, hand.1⟩, of_decide_eq_true hand.2⟩

theorem hasNode_mono {g h : Graph} (hx : GraphExtends g h) {lbl : NodeLabel} {u : String}
    (hn : hasNode g lbl u = true) : hasNode h lbl u = true := by
  rcases hx.1 with ⟨s, hs⟩
  unfold hasNode at *
  rw [hs, List.any_append, hn]
  simp

theorem hasNode_mergeNodeByUri (g : Graph) (lbl : NodeLabel) (u lab : String) :
    hasNode (mergeNodeByUri g lbl u lab).1 lbl u = true := by
  unfold mergeNodeByUri hasNode
  cases h : g.nodes.find? (fun n => decide (n.nodeLabel = lbl) && decide (n.uri = u)) with
  | some n =>
      simp only
      have h1 := List.find?_some h
      have h2 := List.mem_of_find?_eq_some h
      rw [List.any_eq_true]
      exact ⟨n, h2, h1⟩
  | none =>
      simp only
      rw [List.any_append]
      simp

theorem hasNode_merge_row (lbl : NodeLabel) (rel : String) (g : Graph) (r : Row) :
    hasNode (merge_row lbl rel g r) lbl r.child_uri = true := by
  refine hasNode_mono ?_ (hasNode_mergeNodeByUri g lbl r.child_uri r.child_label)
  refine extends_trans
    (extends_mergeNodeByUri _ NodeLabel.Class r.parent_uri r.parent_label) ?_
  exact extends_mergeRel _ rel _ _

theorem hasNode_run_batch (lbl : NodeLabel) (rel : String) :
    ∀ (batch : List Row) (g : Graph) (r : Row), r ∈ batch →
      hasNode (run_batch lbl rel g batch) lbl r.child_uri = true := by
  have H : ∀ (batch : List Row) (g : Graph) (r : Row), r ∈ batch →
      hasNode (batch.foldl (merge_row lbl rel) g) lbl r.child_uri = true := by
    intro batch
    induction batch with
    | nil => intro g r hr; cases hr
    | cons b bs ih =>
        intro g r hr
        rcases List.mem_cons.mp hr with h | h
        · subst h
          simp only [List.foldl_cons]
          exact hasNode_mono
            (extends_foldl (merge_row lbl rel) (extends_merge_row lbl rel) bs _)
            (hasNode_merge_row lbl rel g r)
        · simp only [List.foldl_cons]
          exact ih _ r h
  intro batch g r hr
  exact H batch _ r hr

theorem hasNode_merge_data (g : Graph) (data : List Row) (lbl : NodeLabel) (rel : String)
    (bs : Nat) (hbs : 0 < bs) (r : Row) (hr : r ∈ data) :
    hasNode (merge_data g data lbl rel bs).1 lbl r.child_uri = true := by
  have hflat : r ∈ (generate_batches data bs).flatten := by
    rw [generate_batches_flatten bs hbs]
    exact hr
  rcases List.mem_flatten.mp hflat with ⟨batch, hbatch, hrb⟩
  show hasNode ((generate_batches data bs).foldl (run_batch lbl rel) g) lbl r.child_uri = true
  have H : ∀ (batches : List (List Row)) (g : Graph), batch ∈ batches →
      hasNode (batches.foldl (run_batch lbl rel) g) lbl r.child_uri = true := by
    intro batches
    induction batches with
    | nil => intro g h; cases h
    | cons b bsl ih =>
        intro g hb
        rcases List.mem_cons.mp hb with h | h
        · subst h
          simp only [List.foldl_cons]
          exact hasNode_mono
            (extends_foldl _ (fun g b => extends_run_batch g b lbl rel) bsl _)
            (hasNode_run_batch lbl rel batch g r hrb)
        · simp only [List.foldl_cons]
          exact ih _ h
  exact H (generate_batches data bs) g hbatch

/-
Part 5: claims C1 and C4.
-/

theorem update_database_eq (g : Graph) (r : BulkRemote) :
    update_database g r =
      (merge_data
        ((merge_data g (newRows (node_uris g NodeLabel.Class) r.subclasses)
            NodeLabel.Class "SUBCLASS" 500).1)
        (newRows (node_uris g NodeLabel.Software) r.instances)
        NodeLabel.Software "INSTANCE" 500).1 := rfl

theorem newRows_eq_nil {rows : List Row} {g : Graph} {lbl : NodeLabel}
    (h : ∀ row ∈ rows, hasNode g lbl row.child_uri = true) :
    newRows (node_uris g lbl) rows = [] := by
  rw [newRows, List.filter_eq_nil_iff]
  intro row hrow hcon
  rw [Bool.not_eq_true'] at hcon
  rw [memS_node_uris, h row hrow] at hcon
  cases hcon

/-- C1 (amended): for a fixed remote snapshot, bulk mode is idempotent under
re-execution: a second update_database run immediately after a completed
first run leaves the store exactly unchanged, creating zero additional nodes
and zero additional edges.  Recursive mode lacks this property (see the
counterexample). -/
theorem update_database_idempotent (g : Graph) (r : BulkRemote) :
    update_database (update_database g r) r = update_database g r := by
  have hx1 : GraphExtends (merge_data g
      (newRows (node_uris g NodeLabel.Class) r.subclasses)
      NodeLabel.Class "SUBCLASS" 500).1 (update_database g r) := by
    rw [update_database_eq g r]
    exact extends_merge_data _ _ _ _ _
  have hxg : GraphExtends g (update_database g r) :=
    extends_trans (extends_merge_data _ _ _ _ _) hx1
  have hcls : newRows (node_uris (update_database g r) NodeLabel.Class) r.subclasses = [] := by
    apply newRows_eq_nil
    intro row hrow
    cases hk : memS row.child_uri (node_uris g NodeLabel.Class) with
    | true =>
        rw [memS_node_uris] at hk
        exact hasNode_mono hxg hk
    | false =>
        have hmem : row ∈ newRows (node_uris g NodeLabel.Class) r.subclasses := by
          rw [newRows, List.mem_filter]
          refine ⟨hrow, ?_⟩
          rw [hk]
          rfl
        exact hasNode_mono hx1
          (hasNode_merge_data g _ NodeLabel.Class "SUBCLASS" 500 (by norm_num) row hmem)
  have hsw : newRows (node_uris (update_database g r) NodeLabel.Software) r.instances = [] := by
    apply newRows_eq_nil
    intro row hrow
    cases hk : memS row.child_uri (node_uris g NodeLabel.Software) with
    | true =>
        rw [memS_node_uris] at hk
        exact hasNode_mono hxg hk
    | false =>
        have hmem : row ∈ newRows (node_uris g NodeLabel.Software) r.instances := by
          rw [newRows, List.mem_filter]
          refine ⟨hrow, ?_⟩
          rw [hk]
          rfl
        rw [update_database_eq g r]
        exact hasNode_merge_data _ _ NodeLabel.Software "INSTANCE" 500 (by norm_num) row hmem
  rw [update_database_eq (update_database g r) r, hcls, hsw]
  simp [merge_data, generate_batches_nil]

/-- Remote snapshot for the recursive-mode counterexample: software B is an
instance of class T, which has no superclasses inside the subtree (as the
taxonomy root has none); software C is an instance of class S whose only
superclass is T.  With the rows in this order, the first run processes B
while no Class node with uri T exists, so the MATCH clause of the
MATCH/MERGE/CREATE statement binds nothing and B is silently skipped; the
crawl for C then creates the Class node T. -/
def c1resp (u : String) : List Attempt :=
  if u = "S" then [Attempt.ok [⟨"T", "lT"⟩]] else [Attempt.ok []]

def c1remote : RecRemote := ⟨[⟨"B", "lB", "T", "lT"⟩, ⟨"C", "lC", "S", "lS"⟩], [], c1resp⟩

/-- C1 counterexample: with the c1remote snapshot and an empty store, the
first completed add_new_software run creates three nodes and two edges, and a
second run over the identical snapshot creates one additional node and one
additional edge: recursive mode is not idempotent under re-execution. -/
theorem add_new_software_not_idempotent :
    (add_new_software c1remote 10 Graph.empty).map
        (fun p => (p.1.nodes.length, p.1.rels.length)) = some (3, 2) ∧
    ((add_new_software c1remote 10 Graph.empty).bind
        (fun p => add_new_software c1remote 10 p.1)).map
        (fun p => (p.1.nodes.length, p.1.rels.length)) = some (4, 3) :=
  ⟨rfl, rfl⟩

def g4 : Graph := ⟨1, 1, 0, [⟨0, NodeLabel.Class, "P", some "old", some 0⟩], []⟩

/-- C4 counterexample: the legacy add_parents revision in
to_be_removed/create_class_hierarchy.py ends each merge with an unconditional
SET of the superclass label: over a store whose Class node P already carries
label old, merging subclass X with parent P under candidate label new
rewrites the stored label of P to new, so first write wins fails in that
revision of the merge operations. -/
theorem add_parents_old_overwrites_label :
    (add_parents_old g4 "X" [⟨"P", "new"⟩]).nodes.map (fun n => (n.uri, n.label)) =
      [("P", some "new"), ("X", none)] := rfl

/-- C4 (amended): in the current revision (Maintenance.py), add_parents and
merge_data only append to the node list: every pre-existing node record, its
stored label and created timestamp included, is left verbatim in place, so a
later merge carrying the same uri and a different candidate label never
changes the stored label or created timestamp (first write wins).  The legacy
revision in to_be_removed/create_class_hierarchy.py violates this, as the
counterexample shows. -/
theorem merge_first_write_wins :
    (∀ (g : Graph) (c : ClassRef) (ps : List ClassRef),
        (∃ s, (add_parents g c ps).nodes = g.nodes ++ s) ∧
        ∀ n ∈ g.nodes, n ∈ (add_parents g c ps).nodes) ∧
    (∀ (g : Graph) (data : List Row) (lbl : NodeLabel) (rel : String) (bs : Nat),
        (∃ s, (merge_data g data lbl rel bs).1.nodes = g.nodes ++ s) ∧
        ∀ n ∈ g.nodes, n ∈ (merge_data g data lbl rel bs).1.nodes) := by
  constructor
  · intro g c ps
    rcases (extends_add_parents g c ps).1 with ⟨s, hs⟩
    refine ⟨⟨s, hs⟩, ?_⟩
    intro n hn
    rw [hs]
    exact List.mem_append_left _ hn
  · intro g data lbl rel bs
    rcases (extends_merge_data g data lbl rel bs).1 with ⟨s, hs⟩
    refine ⟨⟨s, hs⟩, ?_⟩
    intro n hn
    rw [hs]
    exact List.mem_append_left _ hn

theorem merge_first_write_wins_witness :
    (⟨0, NodeLabel.Class, "P", some "old", some 0⟩ : Node) ∈
      (add_parents g4 ⟨"X", "xl"⟩ [⟨"P", "new"⟩]).nodes :=
  (merge_first_write_wins.1 g4 ⟨"X", "xl"⟩ [⟨"P", "new"⟩]).2 _ (by decide)

/-
Part 6: claims C3 and C5 on the hierarchy crawler.
-/

/-- Remote taxonomy containing the cycle A to B to A: the only direct
superclass of A is B and the only direct superclass of B is A. -/
def cycResp (u : String) : List Attempt :=
  if u = "A" then [Attempt.ok [⟨"B", "lB"⟩]]
  else if u = "B" then [Attempt.ok [⟨"A", "lA"⟩]]
  else [Attempt.ok []]

def cycRemote : RecRemote := ⟨[], [], cycResp⟩

/-- C3 counterexample: started at A with an empty visited set on the cyclic
taxonomy, the crawler fetches the superclasses of A twice, because the start
class is never added to the visited set and so is re-expanded when reached as
the parent of B: the expansion count of A is not one. -/
theorem create_superclass_tree_expands_start_twice :
    ¬ ((create_superclass_tree cycRemote 10 ⟨"A", "lA"⟩ Graph.empty [] []).map
        (fun st => st.fetched.count "A") = some 1) := by
  intro h
  rw [show (create_superclass_tree cycRemote 10 ⟨"A", "lA"⟩ Graph.empty [] []).map
      (fun st => st.fetched.count "A") = some 2 from rfl] at h
  exact absurd h (by decide)

/-- C3 (amended): on the cyclic remote taxonomy A to B to A, the crawler
started at A with an empty visited set terminates, creates exactly the Class
nodes A and B and exactly the SUBCLASS edges A to B and B to A, raises no
error, and expands B exactly once but A twice (the start class is never
marked visited, so it is re-expanded once when reached as the parent of B). -/
theorem create_superclass_tree_cycle :
    (create_superclass_tree cycRemote 10 ⟨"A", "lA"⟩ Graph.empty [] []).map
        (fun st => (st.graph.nodes.map (fun n => (n.nodeLabel, n.uri)),
                    st.graph.rels.map (fun e => (e.relType, e.src, e.dst)),
                    st.fetched.count "A", st.fetched.count "B", st.err)) =
      some ([(NodeLabel.Class, "A"), (NodeLabel.Class, "B")],
            [("SUBCLASS", 0, 1), ("SUBCLASS", 1, 0)], 2, 1, none) := rfl

/-- Remote snapshot for the run-abort counterexample: the superclass query
for T1, the class of new software W1, fails with a non-retryable HTTPError
500; the class T2 of the independent new software W2 would crawl fine. -/
def c5resp (u : String) : List Attempt :=
  if u = "T1" then [Attempt.http 500 "server error"]
  else if u = "T2" then [Attempt.ok [⟨"P", "lP"⟩]]
  else [Attempt.ok []]

def c5remote : RecRemote :=
  ⟨[⟨"W1", "l1", "T1", "lT1"⟩, ⟨"W2", "l2", "T2", "lT2"⟩], [], c5resp⟩

/-- C5 counterexample: with the c5remote snapshot, the non-429 failure raised
while crawling the class of W1 aborts the whole add_new_software run, not
only that subtree: the error surfaces as the run outcome and the independent
next item W2 is never processed (the final store holds no Software node W2,
indeed no node at all). -/
theorem add_new_software_aborts_whole_run :
    add_new_software c5remote 10 Graph.empty
      = some (Graph.empty, some (500, "server error")) ∧
    (add_new_software c5remote 10 Graph.empty).map
        (fun p => hasNode p.1 NodeLabel.Software "W2") = some false :=
  ⟨rfl, rfl⟩

/-- C5 (amended): a non-retryable query failure raised during the ancestry
crawl of one new software item propagates out of get_superclasses and, since
add_new_software installs no handler, aborts the entire remaining run: the
outcome is the store state left by the failed crawl together with the
error, independent of the later rows, which are not processed. -/
theorem add_new_software_error_propagates (r : RecRemote) (fuel : Nat)
    (current : List String) (row : Row) (rest : List Row) (g : Graph)
    (visited : List String) (st : CrawlState) (e : Nat × String)
    (hcur : memS row.child_uri current = false)
    (hcrawl : create_superclass_tree r fuel ⟨row.parent_uri, row.parent_label⟩ g visited []
        = some st)
    (herr : st.err = some e) :
    add_new_software_go r fuel current (row :: rest) g visited = some (st.graph, some e) := by
  simp only [add_new_software_go, hcur, Bool.false_eq_true, if_false, hcrawl, herr]

theorem add_new_software_error_propagates_witness :
    add_new_software_go c5remote 10 [] [⟨"W1", "l1", "T1", "lT1"⟩, ⟨"W2", "l2", "T2", "lT2"⟩]
        Graph.empty []
      = some (Graph.empty, some (500, "server error")) :=
  add_new_software_error_propagates c5remote 10 [] ⟨"W1", "l1", "T1", "lT1"⟩
    [⟨"W2", "l2", "T2", "lT2"⟩] Graph.empty []
    ⟨Graph.empty, [], ["T1"], some (500, "server error")⟩ (500, "server error")
    rfl rfl rfl

/-
Part 7: claim C2, uri uniqueness.
-/

/-- Remote snapshot under which recursive mode duplicates a software uri: the
same item uri S is returned under two different labels L1 and L2 (the stored
software set is read once before the loop, and the software merge is keyed by
uri and label). -/
def c2resp (u : String) : List Attempt :=
  if u = "T" then [Attempt.ok [⟨"R", "lR"⟩]] else [Attempt.ok []]

def c2remote : RecRemote :=
  ⟨[⟨"S", "L1", "T", "lT"⟩, ⟨"S", "L2", "T", "lT"⟩], [], c2resp⟩

/-- C2 counterexample: the software merge of add_new_software keys the node
by uri AND label, not by uri alone: one completed run over the c2remote
snapshot, starting from an empty store, creates two Software nodes that both
carry the uri S. -/
theorem add_new_software_duplicates_software_uri :
    (add_new_software c2remote 10 Graph.empty).map
        (fun p => (p.1.nodes.filter (fun n =>
          decide (n.nodeLabel = NodeLabel.Software) && decide (n.uri = "S"))).length)
      = some 2 := rfl

/-- At most one stored node carries any given uri under the given label. -/
def UniqueUris (lbl : NodeLabel) (g : Graph) : Prop :=
  (node_uris g lbl).Nodup

theorem uniqueUris_of_nodes_eq {g h : Graph} (hn : h.nodes = g.nodes)
    {lbl : NodeLabel} (hu : UniqueUris lbl g) : UniqueUris lbl h := by
  unfold UniqueUris node_uris at *
  rw [hn]
  exact hu

theorem uniqueUris_mergeNodeByUri {g : Graph} (lbl lbl0 : NodeLabel) (u lab : String)
    (h : UniqueUris lbl g) : UniqueUris lbl (mergeNodeByUri g lbl0 u lab).1 := by
  unfold mergeNodeByUri
  cases hf : g.nodes.find? (fun n => decide (n.nodeLabel = lbl0) && decide (n.uri = u)) with
  | some n => exact h
  | none =>
      unfold UniqueUris node_uris at *
      simp only [List.filter_append, List.map_append]
      by_cases hl : lbl0 = lbl
      · subst hl
        have hkeep : List.filter (fun n => decide (n.nodeLabel = lbl0))
            ([⟨g.nextId, lbl0, u, some lab, some g.time⟩] : List Node) =
            ([⟨g.nextId, lbl0, u, some lab, some g.time⟩] : List Node) := by
          simp [List.filter_cons]
        rw [hkeep]
        simp only [List.map_cons, List.map_nil]
        rw [List.nodup_append]
        refine ⟨h, List.nodup_singleton u, ?_⟩
        intro x hx hx2
        have hxu : x = u := List.mem_singleton.mp hx2
        subst hxu
        rcases List.mem_map.mp hx with ⟨n, hn, huri⟩
        rcases List.mem_filter.mp hn with ⟨hmem, hlbl⟩
        have hnone := List.find?_eq_none.mp hf n hmem
        apply hnone
        rw [Bool.and_eq_true]
        exact ⟨hlbl, decide_eq_true huri⟩
      · have hdrop : List.filter (fun n => decide (n.nodeLabel = lbl))
            ([⟨g.nextId, lbl0, u, some lab, some g.time⟩] : List Node) = [] := by
          simp [List.filter_cons, hl]
        rw [hdrop]
        simp only [List.map_nil, List.append_nil]
        exact h

theorem uniqueUris_mergeNodeByUriLabel {g : Graph} (lbl lbl0 : NodeLabel) (u lab : String)
    (hne : lbl0 ≠ lbl)
    (h : UniqueUris lbl g) : UniqueUris lbl (mergeNodeByUriLabel g lbl0 u lab).1 := by
  unfold mergeNodeByUriLabel
  cases hf : g.nodes.find? (fun n =>
      decide (n.nodeLabel = lbl0) && decide (n.uri = u) && decide (n.label = some lab)) with
  | some n => exact h
  | none =>
      unfold UniqueUris node_uris at *
      simp only [List.filter_append, List.map_append]
      have hdrop : List.filter (fun n => decide (n.nodeLabel = lbl))
          ([⟨g.nextId, lbl0, u, some lab, some g.time⟩] : List Node) = [] := by
        simp [List.filter_cons, hne]
      rw [hdrop]
      simp only [List.map_nil, List.append_nil]
      exact h

theorem uniqueUris_mergeRel {g : Graph} (t : String) (a b : Nat) {lbl : NodeLabel}
    (h : UniqueUris lbl g) : UniqueUris lbl (mergeRel g t a b) := by
  unfold mergeRel
  by_cases hc : g.rels.any (fun e =>
      decide (e.relType = t) && decide (e.src = a) && decide (e.dst = b)) = true
  · rw [if_pos hc]; exact h
  · rw [if_neg hc]; exact uniqueUris_of_nodes_eq rfl h

theorem uniqueUris_createRel {g : Graph} (t : String) (a b : Nat) {lbl : NodeLabel}
    (h : UniqueUris lbl g) : UniqueUris lbl (createRel g t a b) :=
  uniqueUris_of_nodes_eq rfl h

theorem uniqueUris_txns {g : Graph} {lbl : NodeLabel}
    (h : UniqueUris lbl g) : UniqueUris lbl { g with txns := g.txns + 1 } :=
  uniqueUris_of_nodes_eq rfl h

theorem uniqueUris_foldl {β : Type} (lbl : NodeLabel) (step : Graph → β → Graph)
    (hstep : ∀ g b, UniqueUris lbl g → UniqueUris lbl (step g b)) :
    ∀ (l : List β) (g : Graph), UniqueUris lbl g → UniqueUris lbl (l.foldl step g) := by
  intro l
  induction l with
  | nil => intro g h; exact h
  | cons b bs ih => intro g h; exact ih (step g b) (hstep g b h)

theorem uniqueUris_merge_row (lbl0 : NodeLabel) (rel : String) (lbl : NodeLabel)
    (g : Graph) (r : Row) (h : UniqueUris lbl g) :
    UniqueUris lbl (merge_row lbl0 rel g r) :=
  uniqueUris_mergeRel _ _ _
    (uniqueUris_mergeNodeByUri lbl NodeLabel.Class r.parent_uri r.parent_label
      (uniqueUris_mergeNodeByUri lbl lbl0 r.child_uri r.child_label h))

theorem uniqueUris_run_batch (lbl0 : NodeLabel) (rel : String) (lbl : NodeLabel)
    (g : Graph) (batch : List Row) (h : UniqueUris lbl g) :
    UniqueUris lbl (run_batch lbl0 rel g batch) :=
  uniqueUris_foldl lbl (merge_row lbl0 rel)
    (fun g r => uniqueUris_merge_row lbl0 rel lbl g r) batch _ (uniqueUris_txns h)

theorem uniqueUris_merge_data (g : Graph) (data : List Row) (lbl0 : NodeLabel)
    (rel : String) (bs : Nat) (lbl : NodeLabel) (h : UniqueUris lbl g) :
    UniqueUris lbl (merge_data g data lbl0 rel bs).1 :=
  uniqueUris_foldl lbl (run_batch lbl0 rel)
    (fun g b => uniqueUris_run_batch lbl0 rel lbl g b) (generate_batches data bs) g h

theorem uniqueUris_add_parents (g : Graph) (c : ClassRef) (ps : List ClassRef)
    (lbl : NodeLabel) (h : UniqueUris lbl g) : UniqueUris lbl (add_parents g c ps) := by
  refine uniqueUris_foldl lbl _ ?_ ps g h
  intro g p hu
  exact uniqueUris_mergeRel _ _ _
    (uniqueUris_mergeNodeByUri lbl NodeLabel.Class p.uri p.label
      (uniqueUris_mergeNodeByUri lbl NodeLabel.Class c.uri c.label (uniqueUris_txns hu)))

theorem uniqueUris_addSoftwareStmt (g : Graph) (su sl pu : String)
    (lbl : NodeLabel) (hne : NodeLabel.Software ≠ lbl) (h : UniqueUris lbl g) :
    UniqueUris lbl (addSoftwareStmt g su sl pu) := by
  refine uniqueUris_foldl lbl _ ?_ _ _ (uniqueUris_txns h)
  intro g n hu
  exact uniqueUris_createRel _ _ _
    (uniqueUris_mergeNodeByUriLabel lbl NodeLabel.Software su sl hne hu)

theorem uniqueUris_crawl_loop (r : RecRemote) (lbl : NodeLabel) :
    ∀ (fuel : Nat) (g : Graph) (stack : List (List ClassRef)) (visited fetched : List String)
      (st : CrawlState), crawl_loop r fuel g stack visited fetched = some st →
      UniqueUris lbl g → UniqueUris lbl st.graph := by
  intro fuel
  induction fuel with
  | zero => intro g stack v f st h; cases h
  | succ fuel ih =>
      intro g stack v f st h hu
      match stack with
      | [] =>
          simp only [crawl_loop] at h
          cases h
          exact hu
      | [] :: stack =>
          exact ih g stack v f st h hu
      | (p :: ps) :: stack =>
          simp only [crawl_loop] at h
          by_cases hv : memS p.uri v = true
          · rw [if_pos hv] at h
            exact ih g (ps :: stack) v f st h hu
          · rw [if_neg hv] at h
            cases hq : get_superclasses (r.responses p.uri) with
            | none => rw [hq] at h; cases h
            | some res =>
                rw [hq] at h
                obtain ⟨w, out⟩ := res
                cases out with
                | error e =>
                    simp only at h
                    cases h
                    exact hu
                | ok parents =>
                    simp only at h
                    exact ih _ _ _ _ st h (uniqueUris_add_parents g ⟨p.uri, p.label⟩ parents lbl hu)

theorem uniqueUris_create_superclass_tree (r : RecRemote) (fuel : Nat) (c : ClassRef)
    (g : Graph) (visited fetched : List String) (st : CrawlState)
    (h : create_superclass_tree r fuel c g visited fetched = some st)
    (lbl : NodeLabel) (hu : UniqueUris lbl g) : UniqueUris lbl st.graph := by
  unfold create_superclass_tree at h
  cases hq : get_superclasses (r.responses c.uri) with
  | none => rw [hq] at h; cases h
  | some res =>
      rw [hq] at h
      obtain ⟨w, out⟩ := res
      cases out with
      | error e =>
          simp only at h
          cases h
          exact hu
      | ok parents =>
          simp only at h
          exact uniqueUris_crawl_loop r lbl fuel _ _ _ _ st h
            (uniqueUris_add_parents g c parents lbl hu)

theorem uniqueUris_add_new_software_go (r : RecRemote) (fuel : Nat) (current : List String)
    (lbl : NodeLabel) (hne : NodeLabel.Software ≠ lbl) :
    ∀ (rows : List Row) (g : Graph) (visited : List String) (g' : Graph)
      (e : Option (Nat × String)),
      add_new_software_go r fuel current rows g visited = some (g', e) →
      UniqueUris lbl g → UniqueUris lbl g' := by
  intro rows
  induction rows with
  | nil =>
      intro g v g' e h hu
      simp only [add_new_software_go] at h
      cases h
      exact hu
  | cons row rest ih =>
      intro g v g' e h hu
      simp only [add_new_software_go] at h
      by_cases hc : memS row.child_uri current = true
      · rw [if_pos hc] at h
        exact ih g v g' e h hu
      · rw [if_neg hc] at h
        cases hcr : create_superclass_tree r fuel ⟨row.parent_uri, row.parent_label⟩ g v [] with
        | none => rw [hcr] at h; cases h
        | some st =>
            rw [hcr] at h
            obtain ⟨stg, stv, stf, sterr⟩ := st
            have hust : UniqueUris lbl stg :=
              uniqueUris_create_superclass_tree r fuel _ g v [] ⟨stg, stv, stf, sterr⟩
                hcr lbl hu
            cases sterr with
            | some e0 =>
                have h2 : some (stg, some e0) = some (g', e) := h
                cases h2
                exact hust
            | none =>
                have h2 : add_new_software_go r fuel current rest
                    (addSoftwareStmt stg row.child_uri row.child_label row.parent_uri) stv
                    = some (g', e) := h
                exact ih _ _ g' e h2
                  (uniqueUris_addSoftwareStmt stg row.child_uri row.child_label
                    row.parent_uri lbl hne hust)

/-- C2 (amended): every Class node merge of both sync modes keys by uri
alone, so both modes preserve at-most-one-Class-node-per-uri; bulk mode keys
every node merge by uri alone and preserves Software (and Genre) uniqueness
as well; but the Software merge of recursive mode keys by uri and label and
can create two Software nodes with one uri (see the counterexample), while
recursive mode still preserves Class and Genre uniqueness.  No store-level
uniqueness constraint is ever created by the code. -/
theorem sync_preserves_uri_uniqueness :
    (∀ (g : Graph) (r : BulkRemote) (lbl : NodeLabel),
        UniqueUris lbl g → UniqueUris lbl (update_database g r)) ∧
    (∀ (r : RecRemote) (fuel : Nat) (g g' : Graph) (e : Option (Nat × String)),
        add_new_software r fuel g = some (g', e) →
        (UniqueUris NodeLabel.Class g → UniqueUris NodeLabel.Class g') ∧
        (UniqueUris NodeLabel.Genre g → UniqueUris NodeLabel.Genre g')) := by
  constructor
  · intro g r lbl hu
    rw [update_database_eq]
    exact uniqueUris_merge_data _ _ _ _ _ lbl (uniqueUris_merge_data _ _ _ _ _ lbl hu)
  · intro r fuel g g' e h
    constructor
    · intro hu
      exact uniqueUris_add_new_software_go r fuel _ NodeLabel.Class (by simp)
        r.instances g [] g' e h hu
    · intro hu
      exact uniqueUris_add_new_software_go r fuel _ NodeLabel.Genre (by simp)
        r.instances g [] g' e h hu

theorem sync_preserves_uri_uniqueness_witness :
    UniqueUris NodeLabel.Class (update_database Graph.empty ⟨[], []⟩) :=
  sync_preserves_uri_uniqueness.1 Graph.empty ⟨[], []⟩ NodeLabel.Class
    (by simp [UniqueUris, node_uris, Graph.empty])

/-
Part 8: claim C7, rate-limit retry.
-/

/-- C7: the while loop of get_superclasses sleeps for the fixed ten second
interval and retries the identical query on every HTTPError 429, with no
bound on the number of retries: any number n of leading 429 responses
followed by a success yields the successful rows after exactly n backoff
waits (in particular two 429 responses then a success yield the result after
exactly two waits); and rate limiting is never surfaced as a hard failure: an
error outcome of the loop always carries a code other than 429. -/
theorem get_superclasses_retries_429 :
    (∀ (n : Nat) (reason : String) (rows : List ClassRef) (rest : List Attempt),
        get_superclasses
            (List.replicate n (Attempt.http 429 reason) ++ Attempt.ok rows :: rest)
          = some (n, Except.ok rows)) ∧
    (∀ (attempts : List Attempt) (w code : Nat) (reason : String),
        get_superclasses attempts = some (w, Except.error (code, reason)) →
        code ≠ 429) := by
  constructor
  · intro n reason rows rest
    induction n with
    | zero => rfl
    | succ n ih =>
        rw [List.replicate_succ, List.cons_append]
        simp [get_superclasses, ih]
  · intro attempts
    induction attempts with
    | nil =>
        intro w code reason h
        cases h
    | cons a rest ih =>
        intro w code reason h
        cases a with
        | ok rows =>
            simp only [get_superclasses] at h
            cases h
        | http c m =>
            simp only [get_superclasses] at h
            by_cases hc : c = 429
            · rw [if_pos hc] at h
              cases hrec : get_superclasses rest with
              | none =>
                  rw [hrec] at h
                  cases h
              | some p =>
                  rw [hrec] at h
                  obtain ⟨w2, res2⟩ := p
                  have h2 : some (w2 + 1, res2) = some (w, Except.error (code, reason)) := h
                  have hres : res2 = Except.error (code, reason) :=
                    (Prod.mk.injEq _ _ _ _ ▸ Option.some.inj h2).2
                  exact ih w2 code reason (by rw [hrec, hres])
            · rw [if_neg hc] at h
              have h2 : some (0, Except.error ((c, m) : Nat × String))
                  = some (w, Except.error (code, reason)) := h
              have h3 : (Except.error ((c, m) : Nat × String) :
                  Except (Nat × String) (List ClassRef)) = Except.error (code, reason) :=
                (Prod.mk.injEq _ _ _ _ ▸ Option.some.inj h2).2
              have h4 : ((c, m) : Nat × String) = (code, reason) := by
                cases h3
                rfl
              intro hcon
              apply hc
              have h5 : c = code := congrArg Prod.fst h4
              rw [h5, hcon]

theorem get_superclasses_retries_429_witness :
    get_superclasses
        (List.replicate 2 (Attempt.http 429 "Too Many Requests") ++ Attempt.ok [] :: [])
      = some (2, Except.ok []) ∧ (500 : Nat) ≠ 429 :=
  ⟨get_superclasses_retries_429.1 2 "Too Many Requests" [] [],
   get_superclasses_retries_429.2 [Attempt.http 500 "boom"] 0 500 "boom" rfl⟩

/-
Part 9: claim C6, the genre tagging enrichment pass (spec-modelled).
-/

theorem mergeRel_nodes (g : Graph) (t : String) (a b : Nat) :
    (mergeRel g t a b).nodes = g.nodes := by
  unfold mergeRel
  split
  · rfl
  · rfl

theorem mergeRel_rels_mono (g : Graph) (t : String) (a b : Nat) :
    ∃ s, (mergeRel g t a b).rels = g.rels ++ s :=
  (extends_mergeRel g t a b).2

theorem any_append_left {α : Type} {l s : List α} {p : α → Bool}
    (h : l.any p = true) : (l ++ s).any p = true := by
  rw [List.any_append, h]
  simp

theorem mergeRel_ensures (g : Graph) (t : String) (a b : Nat) :
    (mergeRel g t a b).rels.any (fun e =>
      decide (e.relType = t) && decide (e.src = a) && decide (e.dst = b)) = true := by
  unfold mergeRel
  by_cases hc : g.rels.any (fun e =>
      decide (e.relType = t) && decide (e.src = a) && decide (e.dst = b)) = true
  · rw [if_pos hc]
    exact hc
  · rw [if_neg hc]
    simp only
    rw [List.any_append]
    simp

theorem extends_genreStep (g : Graph) (f : GenreFact) : GraphExtends g (genreStep g f) := by
  unfold genreStep
  cases hf : g.nodes.find? (fun n =>
      decide (n.nodeLabel = NodeLabel.Software) && decide (n.uri = f.game_uri)) with
  | none => exact extends_refl g
  | some sw =>
      refine extends_trans
        (extends_mergeNodeByUri g NodeLabel.Genre f.genre_uri f.genre_label) ?_
      exact extends_mergeRel _ "MEMBER" _ _

theorem mergeNodeByUri_spec (g : Graph) (lbl : NodeLabel) (u lab : String) :
    ∃ n ∈ (mergeNodeByUri g lbl u lab).1.nodes,
      n.nodeLabel = lbl ∧ n.uri = u ∧ n.id = (mergeNodeByUri g lbl u lab).2 := by
  unfold mergeNodeByUri
  cases hf : g.nodes.find? (fun n => decide (n.nodeLabel = lbl) && decide (n.uri = u)) with
  | some n =>
      have hp := List.find?_some hf
      rw [Bool.and_eq_true] at hp
      exact ⟨n, List.mem_of_find?_eq_some hf,
        of_decide_eq_true hp.1, of_decide_eq_true hp.2, rfl⟩
  | none =>
      refine ⟨⟨g.nextId, lbl, u, some lab, some g.time⟩, ?_, rfl, rfl, rfl⟩
      simp

/-- Postcondition of genre tagging for one matched fact: a Software node with
the game uri, a Genre node with the genre uri, and a MEMBER edge from the
former to the latter all exist in the store. -/
def GenreApplied (g : Graph) (f : GenreFact) : Prop :=
  ∃ sw ∈ g.nodes, sw.nodeLabel = NodeLabel.Software ∧ sw.uri = f.game_uri ∧
    ∃ gn ∈ g.nodes, gn.nodeLabel = NodeLabel.Genre ∧ gn.uri = f.genre_uri ∧
      ∃ e ∈ g.rels, e.relType = "MEMBER" ∧ e.src = sw.id ∧ e.dst = gn.id

theorem genreApplied_mono {g h : Graph} (hx : GraphExtends g h) {f : GenreFact}
    (hp : GenreApplied g f) : GenreApplied h f := by
  rcases hx with ⟨⟨s, hs⟩, ⟨t, ht⟩⟩
  rcases hp with ⟨sw, hsw, h1, h2, gn, hgn, h3, h4, e, he, h5, h6, h7⟩
  exact ⟨sw, by rw [hs]; exact List.mem_append_left _ hsw, h1, h2,
         gn, by rw [hs]; exact List.mem_append_left _ hgn, h3, h4,
         e, by rw [ht]; exact List.mem_append_left _ he, h5, h6, h7⟩

theorem genreStep_establishes (g : Graph) (f : GenreFact)
    (h : hasNode g NodeLabel.Software f.game_uri = true) :
    GenreApplied (genreStep g f) f := by
  unfold genreStep
  cases hf : g.nodes.find? (fun n =>
      decide (n.nodeLabel = NodeLabel.Software) && decide (n.uri = f.game_uri)) with
  | none =>
      exfalso
      unfold hasNode at h
      rw [List.any_eq_true] at h
      rcases h with ⟨n, hn, hp⟩
      exact List.find?_eq_none.mp hf n hn hp
  | some sw =>
      have hp := List.find?_some hf
      rw [Bool.and_eq_true] at hp
      have hswmem := List.mem_of_find?_eq_some hf
      rcases mergeNodeByUri_spec g NodeLabel.Genre f.genre_uri f.genre_label with
        ⟨gn, hgnmem, hgnl, hgnu, hgnid⟩
      refine ⟨sw, ?_, of_decide_eq_true hp.1, of_decide_eq_true hp.2, gn, ?_, hgnl, hgnu, ?_⟩
      · rcases (extends_trans
            (extends_mergeNodeByUri g NodeLabel.Genre f.genre_uri f.genre_label)
            (extends_mergeRel
              (mergeNodeByUri g NodeLabel.Genre f.genre_uri f.genre_label).1 "MEMBER"
              sw.id (mergeNodeByUri g NodeLabel.Genre f.genre_uri f.genre_label).2)).1 with
          ⟨s, hs⟩
        rw [hs]
        exact List.mem_append_left _ hswmem
      · rw [mergeRel_nodes]
        exact hgnmem
      · have hens := mergeRel_ensures
          (mergeNodeByUri g NodeLabel.Genre f.genre_uri f.genre_label).1 "MEMBER"
          sw.id (mergeNodeByUri g NodeLabel.Genre f.genre_uri f.genre_label).2
        rw [List.any_eq_true] at hens
        rcases hens with ⟨e, he, hep⟩
        rw [Bool.and_eq_true, Bool.and_eq_true] at hep
        refine ⟨e, he, of_decide_eq_true hep.1.1, of_decide_eq_true hep.1.2, ?_⟩
        rw [of_decide_eq_true hep.2]
        exact hgnid.symm

theorem genreApplied_foldl (facts : List GenreFact) :
    ∀ (g : Graph) (f : GenreFact), f ∈ facts →
      hasNode g NodeLabel.Software f.game_uri = true →
      GenreApplied (facts.foldl genreStep g) f := by
  induction facts with
  | nil =>
      intro g f hf
      cases hf
  | cons a l ih =>
      intro g f hf hh
      rcases List.mem_cons.mp hf with hfa | hfl
      · subst hfa
        simp only [List.foldl_cons]
        exact genreApplied_mono (extends_foldl genreStep extends_genreStep l _)
          (genreStep_establishes g f hh)
      · simp only [List.foldl_cons]
        exact ih _ f hfl (hasNode_mono (extends_genreStep g a) hh)

theorem option_some_or {α : Type} (a : α) (o : Option α) : (some a).or o = some a := rfl

/-- A genre fact is absorbed by the store: whenever its game uri matches a
stored Software node, the Genre node already exists and the MEMBER edge from
the matched software to it is already present, so applying the fact again
changes nothing. -/
def GenreAbsorbed (g : Graph) (f : GenreFact) : Prop :=
  ∀ sw, g.nodes.find? (fun n =>
      decide (n.nodeLabel = NodeLabel.Software) && decide (n.uri = f.game_uri)) = some sw →
    ∃ gn, g.nodes.find? (fun n =>
        decide (n.nodeLabel = NodeLabel.Genre) && decide (n.uri = f.genre_uri)) = some gn ∧
      g.rels.any (fun e => decide (e.relType = "MEMBER") && decide (e.src = sw.id) &&
        decide (e.dst = gn.id)) = true

theorem genreStep_of_absorbed {g : Graph} {f : GenreFact} (h : GenreAbsorbed g f) :
    genreStep g f = g := by
  unfold genreStep
  cases hf : g.nodes.find? (fun n =>
      decide (n.nodeLabel = NodeLabel.Software) && decide (n.uri = f.game_uri)) with
  | none => rfl
  | some sw =>
      rcases h sw hf with ⟨gn, hg, hany⟩
      unfold mergeNodeByUri
      rw [hg]
      simp only
      unfold mergeRel
      rw [if_pos hany]

theorem genreStep_absorbs (g : Graph) (f : GenreFact) :
    GenreAbsorbed (genreStep g f) f := by
  unfold genreStep
  cases hf : g.nodes.find? (fun n =>
      decide (n.nodeLabel = NodeLabel.Software) && decide (n.uri = f.game_uri)) with
  | none =>
      intro sw hsw
      rw [hf] at hsw
      cases hsw
  | some sw0 =>
      unfold mergeNodeByUri
      cases hg : g.nodes.find? (fun n =>
          decide (n.nodeLabel = NodeLabel.Genre) && decide (n.uri = f.genre_uri)) with
      | some gn =>
          simp only
          intro sw hsw
          rw [mergeRel_nodes] at hsw
          rw [hf] at hsw
          cases hsw
          refine ⟨gn, ?_, ?_⟩
          · rw [mergeRel_nodes]
            exact hg
          · exact mergeRel_ensures g "MEMBER" sw0.id gn.id
      | none =>
          simp only
          intro sw hsw
          rw [mergeRel_nodes] at hsw
          dsimp only at hsw
          rw [List.find?_append, hf, option_some_or] at hsw
          cases hsw
          refine ⟨⟨g.nextId, NodeLabel.Genre, f.genre_uri, some f.genre_label, some g.time⟩,
            ?_, ?_⟩
          · rw [mergeRel_nodes]
            dsimp only
            rw [List.find?_append, hg, Option.none_or]
            rw [List.find?_cons_of_pos]
            simp
          · exact mergeRel_ensures
              ⟨g.nextId + 1, g.time + 1, g.txns,
                g.nodes ++
                  [⟨g.nextId, NodeLabel.Genre, f.genre_uri, some f.genre_label, some g.time⟩],
                g.rels⟩
              "MEMBER" sw0.id g.nextId

theorem genreStep_preserves_absorbed {g : Graph} {f : GenreFact} (f2 : GenreFact)
    (h : GenreAbsorbed g f) : GenreAbsorbed (genreStep g f2) f := by
  unfold genreStep
  cases hf2 : g.nodes.find? (fun n =>
      decide (n.nodeLabel = NodeLabel.Software) && decide (n.uri = f2.game_uri)) with
  | none => exact h
  | some sw2 =>
      unfold mergeNodeByUri
      cases hg2 : g.nodes.find? (fun n =>
          decide (n.nodeLabel = NodeLabel.Genre) && decide (n.uri = f2.genre_uri)) with
      | some gn2 =>
          simp only
          intro sw hsw
          rw [mergeRel_nodes] at hsw
          rcases h sw hsw with ⟨gn, hg, hany⟩
          refine ⟨gn, ?_, ?_⟩
          · rw [mergeRel_nodes]
            exact hg
          · rcases mergeRel_rels_mono g "MEMBER" sw2.id gn2.id with ⟨t, ht⟩
            rw [ht]
            exact any_append_left hany
      | none =>
          simp only
          intro sw hsw
          rw [mergeRel_nodes] at hsw
          dsimp only at hsw
          rw [List.find?_append] at hsw
          have hw2 : List.find? (fun n =>
              decide (n.nodeLabel = NodeLabel.Software) && decide (n.uri = f.game_uri))
              ([⟨g.nextId, NodeLabel.Genre, f2.genre_uri, some f2.genre_label,
                some g.time⟩] : List Node) = none := by
            rw [List.find?_cons_of_neg]
            · rfl
            · simp
          rw [hw2, Option.or_none] at hsw
          rcases h sw hsw with ⟨gn, hg, hany⟩
          refine ⟨gn, ?_, ?_⟩
          · rw [mergeRel_nodes]
            dsimp only
            rw [List.find?_append, hg, option_some_or]
          · rcases mergeRel_rels_mono
              ⟨g.nextId + 1, g.time + 1, g.txns,
                g.nodes ++
                  [⟨g.nextId, NodeLabel.Genre, f2.genre_uri, some f2.genre_label,
                    some g.time⟩],
                g.rels⟩ "MEMBER" sw2.id g.nextId with ⟨t, ht⟩
            rw [ht]
            dsimp only
            exact any_append_left hany

theorem foldl_preserves_absorbed {f : GenreFact} :
    ∀ (l : List GenreFact) (g : Graph), GenreAbsorbed g f →
      GenreAbsorbed (l.foldl genreStep g) f := by
  intro l
  induction l with
  | nil => intro g h; exact h
  | cons a t ih => intro g h; exact ih _ (genreStep_preserves_absorbed a h)

theorem all_absorbed_after :
    ∀ (facts : List GenreFact) (g : Graph) (f : GenreFact), f ∈ facts →
      GenreAbsorbed (facts.foldl genreStep g) f := by
  intro facts
  induction facts with
  | nil =>
      intro g f hf
      cases hf
  | cons a t ih =>
      intro g f hf
      rcases List.mem_cons.mp hf with hfa | hfl
      · subst hfa
        simp only [List.foldl_cons]
        exact foldl_preserves_absorbed t _ (genreStep_absorbs g f)
      · simp only [List.foldl_cons]
        exact ih _ f hfl

theorem foldl_genreStep_fixed :
    ∀ (l : List GenreFact) (g : Graph), (∀ f ∈ l, genreStep g f = g) →
      l.foldl genreStep g = g := by
  intro l
  induction l with
  | nil => intro g _; rfl
  | cons a t ih =>
      intro g h
      simp only [List.foldl_cons]
      rw [h a (List.mem_cons_self a t)]
      exact ih g (fun f hf => h f (List.mem_cons_of_mem a hf))

/-- C6 (spec-modelled): the genre tagging pass, modelled from the spec since
the src body of add_genre_to_videogames is an empty stub, matches the stored
Software nodes against the remote genre facts: for every fact whose game uri
matches a stored Software node, the pass leaves the store with a Genre node
carrying the genre uri and a MEMBER edge from that software to the genre; and
the pass is idempotent, so it can be run, and re-run, after either sync mode
without further effect on an already enriched store. -/
theorem add_genre_matches_and_idempotent :
    (∀ (g : Graph) (facts : List GenreFact) (f : GenreFact), f ∈ facts →
        hasNode g NodeLabel.Software f.game_uri = true →
        GenreApplied (add_genre_to_videogames g facts) f) ∧
    (∀ (g : Graph) (facts : List GenreFact),
        add_genre_to_videogames (add_genre_to_videogames g facts) facts =
          add_genre_to_videogames g facts) := by
  constructor
  · intro g facts f hf hh
    exact genreApplied_foldl facts g f hf hh
  · intro g facts
    unfold add_genre_to_videogames
    apply foldl_genreStep_fixed
    intro f hf
    exact genreStep_of_absorbed (all_absorbed_after facts g f hf)

theorem add_genre_matches_and_idempotent_witness :
    GenreApplied
      (add_genre_to_videogames
        ⟨1, 1, 0, [⟨0, NodeLabel.Software, "W", some "w", some 0⟩], []⟩
        [⟨"W", "G", "gl"⟩]) ⟨"W", "G", "gl"⟩ :=
  add_genre_matches_and_idempotent.1 _ [⟨"W", "G", "gl"⟩] ⟨"W", "G", "gl"⟩
    (List.mem_singleton.mpr rfl) (by decide)
